import Mathlib

/-!
# The wifi HAL global lock (`wifi/aidl/default/aidl_sync_util.cpp`)

The translation unit holds one object and one function:

* `g_mutex`, a `std::recursive_mutex` in an unnamed namespace;
* `acquireGlobalLock()`, whose body is
  `return std::unique_lock<std::recursive_mutex>{g_mutex};`.

What the two standard library classes do is written down from the C++ standard:

* `[thread.mutex.recursive]`: a thread that owns a recursive mutex may acquire
  additional levels of ownership; how many levels one thread may acquire is
  unspecified, and once a thread has the maximum, further calls of `try_lock()`
  fail and further calls of `lock()` throw `std::system_error`.  The maximum is the
  parameter `maxLevels` of the definitions below (a C library that keeps the
  recursion count in an 11-bit field allows 2048 levels).
* `[thread.lock.unique]`: the constructor from a mutex locks it and owns; the
  destructor unlocks when the handle owns; a move leaves the source without
  mutex and not owning; move assignment first unlocks what the target owns;
  `lock`, `try_lock`, `unlock`, `release`, `swap`, `owns_lock` and `mutex` are
  members.

The embedding comes in three layers.

* Calls on one mutex: the state of the mutex is passed explicitly
  (`recursive_mutex_lock`, ..., `acquireGlobalLock`).
* The mutex objects of the process (`Memory`): `Memory.acquireGlobalLock` is the
  same call with the object it names looked up in memory.
* The program (`Sys`): the state of `g_mutex` and every handle object, with the
  operations threads can perform on them (`Op`, `step`: every constructor and
  member of the handle type, called by any thread), what a thread can do behind
  the back of the handles through the pointer a handle gives out (`Action`,
  `act`), and scopes with their ways out (`runBody`, `lockedScope`).

The first part of the file holds the definitions, the second part the theorems.
-/

namespace aidl_sync_util

/-- An execution context (a thread of the process). -/
abbrev Ctx := Nat

/-- Observable state of a `std::recursive_mutex`: free, or held by `owner`
with `depth` levels of ownership. -/
inductive LockState where
  | Free
  | Held (owner : Ctx) (depth : Nat)
deriving DecidableEq, Repr

/-- How a call ends: it returns a value, it blocks (it cannot return in the
current state), it throws `std::system_error`, or its behaviour is undefined
because a precondition of the library was violated. -/
inductive Outcome (α : Type) where
  | returns (a : α)
  | blocks
  | throws
  | undefined
deriving DecidableEq, Repr

/-- Carry the outcome of a call on to what is made of its result. -/
def Outcome.andThen {α β : Type} (o : Outcome α) (f : α → β) : Outcome β :=
  match o with
  | .returns a => .returns (f a)
  | .blocks => .blocks
  | .throws => .throws
  | .undefined => .undefined

/-- Number of ownership levels of a lock state (`0` when free). -/
def LockState.depth : LockState → Nat
  | .Free => 0
  | .Held _ n => n

/-- A lock state is well formed when a held lock has at least one level. -/
def LockState.wf : LockState → Bool
  | .Free => true
  | .Held _ n => decide (1 ≤ n)

/-- Ownership levels that context `ctx` has on the mutex. -/
def LockState.levelsOf (ctx : Ctx) : LockState → Nat
  | .Free => 0
  | .Held o n => if o = ctx then n else 0

/-- The call `std::recursive_mutex::lock()` by thread `ctx`.  A free mutex is taken
with one level; the owner gains a level unless it already has `maxLevels`
of them, in which case the call throws `std::system_error`; any other thread
blocks until the mutex is free. -/
def recursive_mutex_lock (maxLevels : Nat) (ctx : Ctx) : LockState → Outcome LockState
  | .Free => .returns (.Held ctx 1)
  | .Held o n =>
    if o = ctx then
      if n < maxLevels then .returns (.Held o (n + 1)) else .throws
    else .blocks

/-- The call `std::recursive_mutex::try_lock()` by thread `ctx`: like `lock`, but
it returns `false` where `lock` would block or throw. -/
def recursive_mutex_try_lock (maxLevels : Nat) (ctx : Ctx) : LockState → LockState × Bool
  | .Free => (.Held ctx 1, true)
  | .Held o n =>
    if o = ctx ∧ n < maxLevels then (.Held o (n + 1), true) else (.Held o n, false)

/-- The call `std::recursive_mutex::unlock()` by thread `ctx`.  The calling thread
must own the mutex; one level is given back and the mutex is free when the last
level goes. -/
def recursive_mutex_unlock (ctx : Ctx) : LockState → Outcome LockState
  | .Free => .undefined
  | .Held o n =>
    if o = ctx then
      if n ≤ 1 then .returns .Free else .returns (.Held o (n - 1))
    else .undefined

/-- A mutex object of the process: `g_mutex` of this translation unit, or one of
the other mutex objects the process has. -/
inductive MutexRef where
  | g_mutex
  | other (k : Nat)
deriving DecidableEq, Repr

/-- The data members of `std::unique_lock<std::recursive_mutex>`: the pointer
`pm` (null or the address of a mutex) and the flag `owns`. -/
structure unique_lock where
  pm : Option MutexRef
  owns : Bool
deriving DecidableEq, Repr

/-- The constructor `unique_lock(mutex_type& m)` run by `ctx` on the mutex object
`r`, whose state is `m`: it calls `m.lock()` and, when that returns, has
`pm == &m` and `owns == true`. -/
def unique_lock_ctor (maxLevels : Nat) (ctx : Ctx) (r : MutexRef) (m : LockState) :
    Outcome (LockState × unique_lock) :=
  match recursive_mutex_lock maxLevels ctx m with
  | .returns m1 => .returns (m1, ⟨some r, true⟩)
  | .blocks => .blocks
  | .throws => .throws
  | .undefined => .undefined

/-- The default constructor `unique_lock()`: no mutex, not owning. -/
def unique_lock_default : unique_lock :=
  ⟨none, false⟩

/-- The constructor `unique_lock(m, std::defer_lock)` on the mutex object `r`: the
handle points to the mutex and does not own; the mutex is not touched. -/
def unique_lock_ctor_defer (r : MutexRef) : unique_lock :=
  ⟨some r, false⟩

/-- The constructor `unique_lock(m, std::try_to_lock)` run by `ctx` on the mutex
object `r`, whose state is `m`: `owns = m.try_lock()`. -/
def unique_lock_ctor_try (maxLevels : Nat) (ctx : Ctx) (r : MutexRef) (m : LockState) :
    LockState × unique_lock :=
  ((recursive_mutex_try_lock maxLevels ctx m).1,
    ⟨some r, (recursive_mutex_try_lock maxLevels ctx m).2⟩)

/-- The constructor `unique_lock(m, std::adopt_lock)` on the mutex object `r`: the
handle owns without a call on the mutex; the calling thread must own the mutex. -/
def unique_lock_ctor_adopt (r : MutexRef) : unique_lock :=
  ⟨some r, true⟩

/-- The destructor `~unique_lock()` run by `ctx`: `if (owns) pm->unlock();`. -/
def unique_lock_dtor (ctx : Ctx) (lk : unique_lock) (m : LockState) : Outcome LockState :=
  if lk.owns then recursive_mutex_unlock ctx m else .returns m

/-- The move constructor `unique_lock(unique_lock&& u)`: the new object takes
`pm` and `owns` of `u`, and `u` is left with a null pointer and `owns == false`.
The result is (new object, moved-from object). -/
def unique_lock_move (u : unique_lock) : unique_lock × unique_lock :=
  (⟨u.pm, u.owns⟩, ⟨none, false⟩)

/-- The move assignment `lk = std::move(u)` run by `ctx`: if `lk` owns it calls
`pm->unlock()`; then `lk` takes `pm` and `owns` of `u`, and `u` is left with a
null pointer and `owns == false`.  The result is the mutex state, the target and
the moved-from object. -/
def unique_lock_move_assign (ctx : Ctx) (lk u : unique_lock) (m : LockState) :
    Outcome (LockState × unique_lock × unique_lock) :=
  (unique_lock_dtor ctx lk m).andThen fun m1 => (m1, (unique_lock_move u).1, (unique_lock_move u).2)

/-- The member `a.swap(b)`: the two handles exchange their members.  The result
is (new `a`, new `b`). -/
def unique_lock_swap (a b : unique_lock) : unique_lock × unique_lock :=
  (b, a)

/-- The member `unique_lock::lock()` run by `ctx`: it throws when the pointer is
null or the handle already owns; otherwise it calls `pm->lock()` and sets
`owns`. -/
def unique_lock_lock (maxLevels : Nat) (ctx : Ctx) (lk : unique_lock) (m : LockState) :
    Outcome (LockState × unique_lock) :=
  match lk.pm with
  | none => .throws
  | some _ =>
    if lk.owns then .throws
    else
      match recursive_mutex_lock maxLevels ctx m with
      | .returns m1 => .returns (m1, { lk with owns := true })
      | .blocks => .blocks
      | .throws => .throws
      | .undefined => .undefined

/-- The member `unique_lock::try_lock()` run by `ctx`: same errors as `lock()`;
otherwise `owns = pm->try_lock()`. -/
def unique_lock_try_lock (maxLevels : Nat) (ctx : Ctx) (lk : unique_lock) (m : LockState) :
    Outcome (LockState × unique_lock) :=
  match lk.pm with
  | none => .throws
  | some _ =>
    if lk.owns then .throws
    else
      .returns ((recursive_mutex_try_lock maxLevels ctx m).1,
        { lk with owns := (recursive_mutex_try_lock maxLevels ctx m).2 })

/-- The member `unique_lock::unlock()` run by `ctx`: it throws when the handle
does not own; otherwise it calls `pm->unlock()` and clears `owns`. -/
def unique_lock_unlock (ctx : Ctx) (lk : unique_lock) (m : LockState) :
    Outcome (LockState × unique_lock) :=
  if lk.owns then
    match recursive_mutex_unlock ctx m with
    | .returns m1 => .returns (m1, { lk with owns := false })
    | .blocks => .blocks
    | .throws => .throws
    | .undefined => .undefined
  else .throws

/-- The member `unique_lock::release()`: the handle forgets the mutex without
unlocking it (the call returns the pointer it had). -/
def unique_lock_release (_lk : unique_lock) : unique_lock :=
  ⟨none, false⟩

/-- The function `acquireGlobalLock()` called by thread `ctx` while `g_mutex` is in
the given state: `return std::unique_lock<std::recursive_mutex>{g_mutex};`. -/
def acquireGlobalLock (maxLevels : Nat) (ctx : Ctx) (g_mutex : LockState) :
    Outcome (LockState × unique_lock) :=
  unique_lock_ctor maxLevels ctx .g_mutex g_mutex

/-- The mutex objects of the process, each with its state. -/
abbrev Memory := MutexRef → LockState

/-- Memory at process start: a `std::recursive_mutex` is constructed unlocked, and
`g_mutex`, an object of namespace scope, is constructed before the program
makes its first call. -/
def Memory.start : Memory :=
  fun _ => .Free

/-- The constructor `unique_lock(mutex_type& m)` run by `ctx` on the object `r` of
memory: the state of `r` is read, the constructor runs on it, and the new state
of `r` is written back. -/
def Memory.unique_lock_ctor (mem : Memory) (maxLevels : Nat) (ctx : Ctx) (r : MutexRef) :
    Outcome (Memory × unique_lock) :=
  (aidl_sync_util.unique_lock_ctor maxLevels ctx r (mem r)).andThen fun x =>
    (Function.update mem r x.1, x.2)

/-- The function `acquireGlobalLock()` called by thread `ctx`, as it acts on the
memory of the process: the function has no parameter, and the object it
constructs the handle on is `g_mutex`. -/
def Memory.acquireGlobalLock (mem : Memory) (maxLevels : Nat) (ctx : Ctx) :
    Outcome (Memory × unique_lock) :=
  mem.unique_lock_ctor maxLevels ctx .g_mutex

/-- A handle object of the program: the thread whose level of ownership it
carries while it owns (the thread that made the successful `lock` call), its
data members, whether its lifetime has not ended yet, and (for bookkeeping
only) the number of the acquisition whose ownership it carries. -/
structure Handle where
  ctx : Ctx
  lk : unique_lock
  alive : Bool
  origin : Nat
deriving DecidableEq, Repr

/-- A live handle that owns a level of the mutex. -/
def Handle.holding (h : Handle) : Bool :=
  h.alive && h.lk.owns

/-- State of the process as far as the lock is concerned: the state of
`g_mutex`, every handle object created so far (its position is its identity),
and two bookkeeping fields: how many calls of `lock` on the mutex have
succeeded, and the acquisitions given back by a handle, in the order of the
calls. -/
structure Sys where
  g_mutex : LockState
  handles : List Handle
  acquired : Nat
  released : List Nat
deriving DecidableEq, Repr

/-- State at process start: `g_mutex` is constructed and free, no handle exists. -/
def Sys.init : Sys :=
  ⟨.Free, [], 0, []⟩

/-- The handle object number `i`, when it exists and its lifetime has not
ended. -/
def Sys.live (s : Sys) (i : Nat) : Option Handle :=
  match s.handles[i]? with
  | some h => if h.alive then some h else none
  | none => none

/-- The ways a program can construct a handle itself, without `acquireGlobalLock`:
by the default constructor, or on the pointer to `g_mutex` that a handle has given
out, with `std::defer_lock` or `std::try_to_lock`.  (The plain constructor on that
pointer is what `acquireGlobalLock` runs.) -/
inductive Construct where
  | default
  | defer_lock
  | try_to_lock
deriving DecidableEq, Repr

/-- What threads can do through `acquireGlobalLock` and the handles.  Where a
member touches the mutex the thread `t` that makes the call is named; the other
members act the same whoever calls them. -/
inductive Op where
  /-- thread `ctx` runs `auto h = acquireGlobalLock();` -/
  | acquire (ctx : Ctx)
  /-- the lifetime of handle `i` ends on thread `t`: `~unique_lock()` -/
  | destroy (t : Ctx) (i : Nat)
  /-- a new handle is move-constructed from handle `i` -/
  | move (i : Nat)
  /-- thread `t` runs the move assignment `h_i = std::move(h_j)` -/
  | move_assign (t : Ctx) (i j : Nat)
  /-- the call `h_i.swap(h_j)` -/
  | swap (i j : Nat)
  /-- thread `t` calls `lock()` on handle `i` -/
  | lock (t : Ctx) (i : Nat)
  /-- thread `t` calls `try_lock()` on handle `i` -/
  | try_lock (t : Ctx) (i : Nat)
  /-- thread `t` calls `unlock()` on handle `i` -/
  | unlock (t : Ctx) (i : Nat)
  /-- the member call `release()` on handle `i` -/
  | release (i : Nat)
  /-- one of the observers `owns_lock()`, `operator bool()`, `mutex()` on handle `i` -/
  | observe (i : Nat)
  /-- thread `t` constructs a handle itself -/
  | construct (t : Ctx) (how : Construct)
deriving DecidableEq, Repr

/-- One operation of the program.  Using an object that does not exist or whose
lifetime has ended is undefined.  A handle that comes to own through a call by
thread `t` carries a level of `t`. -/
def step (maxLevels : Nat) (s : Sys) : Op → Outcome Sys
  | .acquire ctx =>
    (acquireGlobalLock maxLevels ctx s.g_mutex).andThen fun r =>
      { g_mutex := r.1
        handles := s.handles ++ [⟨ctx, r.2, true, s.acquired⟩]
        acquired := s.acquired + 1
        released := s.released }
  | .destroy t i =>
    match s.live i with
    | none => .undefined
    | some h =>
      (unique_lock_dtor t h.lk s.g_mutex).andThen fun m =>
        { g_mutex := m
          handles := s.handles.set i { h with alive := false }
          acquired := s.acquired
          released := if h.lk.owns then s.released ++ [h.origin] else s.released }
  | .move i =>
    match s.live i with
    | none => .undefined
    | some h =>
      .returns
        { g_mutex := s.g_mutex
          handles := s.handles.set i { h with lk := (unique_lock_move h.lk).2 }
            ++ [⟨h.ctx, (unique_lock_move h.lk).1, true, h.origin⟩]
          acquired := s.acquired
          released := s.released }
  | .move_assign t i j =>
    match s.live i, s.live j with
    | some hi, some hj =>
      (unique_lock_move_assign t hi.lk hj.lk s.g_mutex).andThen fun r =>
        { g_mutex := r.1
          handles := (s.handles.set i { hi with ctx := hj.ctx, lk := r.2.1, origin := hj.origin }).set
            j { hj with lk := r.2.2 }
          acquired := s.acquired
          released := if hi.lk.owns then s.released ++ [hi.origin] else s.released }
    | _, _ => .undefined
  | .swap i j =>
    match s.live i, s.live j with
    | some hi, some hj =>
      .returns
        { g_mutex := s.g_mutex
          handles := (s.handles.set i
            { hi with ctx := hj.ctx, lk := (unique_lock_swap hi.lk hj.lk).1, origin := hj.origin }).set
            j { hj with ctx := hi.ctx, lk := (unique_lock_swap hi.lk hj.lk).2, origin := hi.origin }
          acquired := s.acquired
          released := s.released }
    | _, _ => .undefined
  | .lock t i =>
    match s.live i with
    | none => .undefined
    | some h =>
      (unique_lock_lock maxLevels t h.lk s.g_mutex).andThen fun r =>
        { g_mutex := r.1
          handles := s.handles.set i { h with ctx := t, lk := r.2, origin := s.acquired }
          acquired := s.acquired + 1
          released := s.released }
  | .try_lock t i =>
    match s.live i with
    | none => .undefined
    | some h =>
      (unique_lock_try_lock maxLevels t h.lk s.g_mutex).andThen fun r =>
        { g_mutex := r.1
          handles := s.handles.set i
            { h with
              ctx := if r.2.owns then t else h.ctx
              lk := r.2
              origin := if r.2.owns then s.acquired else h.origin }
          acquired := if r.2.owns then s.acquired + 1 else s.acquired
          released := s.released }
  | .unlock t i =>
    match s.live i with
    | none => .undefined
    | some h =>
      (unique_lock_unlock t h.lk s.g_mutex).andThen fun r =>
        { g_mutex := r.1
          handles := s.handles.set i { h with lk := r.2 }
          acquired := s.acquired
          released := s.released ++ [h.origin] }
  | .release i =>
    match s.live i with
    | none => .undefined
    | some h =>
      .returns
        { g_mutex := s.g_mutex
          handles := s.handles.set i { h with lk := unique_lock_release h.lk }
          acquired := s.acquired
          released := s.released }
  | .observe i =>
    match s.live i with
    | none => .undefined
    | some _ => .returns s
  | .construct t .default =>
    .returns { s with handles := s.handles ++ [⟨t, unique_lock_default, true, s.acquired⟩] }
  | .construct t .defer_lock =>
    .returns
      { s with handles := s.handles ++ [⟨t, unique_lock_ctor_defer .g_mutex, true, s.acquired⟩] }
  | .construct t .try_to_lock =>
    .returns
      { g_mutex := (unique_lock_ctor_try maxLevels t .g_mutex s.g_mutex).1
        handles := s.handles ++
          [⟨t, (unique_lock_ctor_try maxLevels t .g_mutex s.g_mutex).2, true, s.acquired⟩]
        acquired :=
          if (unique_lock_ctor_try maxLevels t .g_mutex s.g_mutex).2.owns then s.acquired + 1
          else s.acquired
        released := s.released }

/-- Run a sequence of operations, each of which has to complete; `none` when one
of them blocks, throws, or is undefined. -/
def exec (maxLevels : Nat) : Sys → List Op → Option Sys
  | s, [] => some s
  | s, op :: ops =>
    match step maxLevels s op with
    | .returns s1 => exec maxLevels s1 ops
    | _ => none

/-- Everything a thread can do to the lock: the operations of `Op`; calls made on
`g_mutex` directly, through the pointer that `mutex()` or `release()` of a handle has
given out; and a handle constructed on that pointer with `std::adopt_lock`.  A
pointer, once read, can be kept and passed on, so these are not tied to a
handle. -/
inductive Action where
  /-- an operation through `acquireGlobalLock` or a handle -/
  | op (o : Op)
  /-- thread `t` calls `p->lock()` on the pointer -/
  | mutex_lock (t : Ctx)
  /-- thread `t` calls `p->try_lock()` on the pointer -/
  | mutex_try_lock (t : Ctx)
  /-- thread `t` calls `p->unlock()` on the pointer -/
  | mutex_unlock (t : Ctx)
  /-- thread `t` constructs a handle on the pointer with `std::adopt_lock` -/
  | adopt (t : Ctx)
deriving DecidableEq, Repr

/-- One action of the program. -/
def act (maxLevels : Nat) (s : Sys) : Action → Outcome Sys
  | .op o => step maxLevels s o
  | .mutex_lock t =>
    (recursive_mutex_lock maxLevels t s.g_mutex).andThen fun m =>
      { s with g_mutex := m, acquired := s.acquired + 1 }
  | .mutex_try_lock t =>
    .returns
      { s with
        g_mutex := (recursive_mutex_try_lock maxLevels t s.g_mutex).1
        acquired :=
          if (recursive_mutex_try_lock maxLevels t s.g_mutex).2 then s.acquired + 1
          else s.acquired }
  | .mutex_unlock t =>
    (recursive_mutex_unlock t s.g_mutex).andThen fun m => { s with g_mutex := m }
  | .adopt t =>
    if 0 < s.g_mutex.levelsOf t then
      .returns
        { s with handles := s.handles ++ [⟨t, unique_lock_ctor_adopt .g_mutex, true, s.acquired⟩] }
    else .undefined

/-- How control leaves the body of a scope: by falling off its end, by an early
`return`, or by a thrown exception. -/
inductive Exit where
  | normal
  | early
  | thrown
deriving DecidableEq, Repr

/-- A statement in the body of a scope: an action, a `return`, or a `throw`. -/
inductive Stmt where
  | act (a : Action)
  | ret
  | raise
deriving DecidableEq, Repr

/-- Run the body of a scope.  The statements run in order; a `return` or a
`throw` leaves the body at once and skips the rest, and so does an action that
throws; the result says how the body was left and in which state. -/
def runBody (maxLevels : Nat) : Sys → List Stmt → Outcome (Exit × Sys)
  | s, [] => .returns (.normal, s)
  | s, .ret :: _ => .returns (.early, s)
  | s, .raise :: _ => .returns (.thrown, s)
  | s, .act a :: rest =>
    match act maxLevels s a with
    | .returns s1 => runBody maxLevels s1 rest
    | .throws => .returns (.thrown, s)
    | .blocks => .blocks
    | .undefined => .undefined

/-- The block `{ auto lock = acquireGlobalLock(); body }` run by `ctx`: the way a
caller uses the function (the source file holds no caller).  The handle is the
object number `s.handles.length`; the body can use it like any other handle.  The
handle has automatic storage duration, so by the rules of the language it is
destroyed when control leaves the block, however that happens: at the end of
the block, at a `return`, and during stack unwinding after a `throw`.  The
destructor runs on thread `ctx`, and the way the body was left is handed on. -/
def lockedScope (maxLevels : Nat) (ctx : Ctx) (body : List Stmt) (s : Sys) :
    Outcome (Exit × Sys) :=
  match step maxLevels s (.acquire ctx) with
  | .returns s1 =>
    match runBody maxLevels s1 body with
    | .returns r =>
      (step maxLevels r.2 (.destroy ctx s.handles.length)).andThen fun s3 => (r.1, s3)
    | .blocks => .blocks
    | .throws => .throws
    | .undefined => .undefined
  | .blocks => .blocks
  | .throws => .throws
  | .undefined => .undefined

/-- Number of live owning handles that carry a level of thread `ctx`. -/
def Sys.holds (s : Sys) (ctx : Ctx) : Nat :=
  s.handles.countP fun h => h.holding && decide (h.ctx = ctx)

/-- The program in which `ctx` enters `N` nested scopes, each taking the lock, and
then leaves the innermost `k` of them: handle `N - 1` goes first. -/
def nested (ctx : Ctx) (N k : Nat) : List Op :=
  List.replicate N (Op.acquire ctx) ++ (List.range k).map fun j => Op.destroy ctx (N - 1 - j)

/-- The state in which `ctx` has entered `N` nested scopes, each taking the lock,
and has left the innermost `k` of them. -/
def nestedState (ctx : Ctx) (N k : Nat) : Sys :=
  { g_mutex := if N ≤ k then .Free else .Held ctx (N - k)
    handles := (List.range N).map fun i => ⟨ctx, ⟨some .g_mutex, true⟩, decide (i + k < N), i⟩
    acquired := N
    released := (List.range k).map fun j => N - 1 - j }

/-- The ownership levels the live owning handles stand for: for each such handle,
the thread whose level it carries and the number of the acquisition. -/
def grants (hs : List Handle) : List (Ctx × Nat) :=
  (hs.filter Handle.holding).map fun h => (h.ctx, h.origin)

/-- What holds of the mutex state `m`, the ownership levels `G` carried by live
handles, the number `acq` of successful `lock` calls and the log `rel` of
acquisitions given back, in every state the program can reach: the mutex state
is well formed; every live owning handle belongs to the owner of the mutex;
there are no more such handles than ownership levels; every successful `lock`
is either still a level of the mutex or has been given back; and no acquisition
number occurs twice among the live owning handles and the log. -/
structure LockInv (m : LockState) (G : List (Ctx × Nat)) (acq : Nat) (rel : List Nat) :
    Prop where
  wf : m.wf = true
  owner : ∀ g ∈ G, ∃ n, m = .Held g.1 n
  count : G.length ≤ m.depth
  balance : rel.length + m.depth = acq
  nodup : (G.map Prod.snd ++ rel).Nodup
  fresh : ∀ x ∈ G.map Prod.snd ++ rel, x < acq

/-- The invariant of the program state. -/
def Inv (s : Sys) : Prop :=
  LockInv s.g_mutex (grants s.handles) s.acquired s.released

/-! ## Lists of handles -/

theorem split_at {α : Type} (l : List α) (i : Nat) (a : α) (hi : l[i]? = some a) :
    ∃ A B, l = A ++ a :: B ∧ ∀ b, l.set i b = A ++ b :: B := by
  induction l generalizing i with
  | nil => simp at hi
  | cons x xs ih =>
    cases i with
    | zero =>
      simp at hi
      subst hi
      exact ⟨[], xs, by simp, by simp⟩
    | succ j =>
      simp at hi
      obtain ⟨A, B, h1, h2⟩ := ih j hi
      refine ⟨x :: A, B, by simp [h1], ?_⟩
      intro b
      simp [h2 b]

theorem grants_append (A B : List Handle) : grants (A ++ B) = grants A ++ grants B := by
  simp [grants]

theorem grants_cons (h : Handle) (B : List Handle) : grants (h :: B) = grants [h] ++ grants B :=
  grants_append [h] B

theorem grants_nil : grants [] = [] := rfl

theorem grants_holding (h : Handle) (hh : h.holding = true) :
    grants [h] = [(h.ctx, h.origin)] := by
  simp [grants, List.filter_cons, hh]

theorem grants_not_holding (h : Handle) (hh : h.holding = false) : grants [h] = [] := by
  simp [grants, List.filter_cons, hh]

theorem grants_set (hs : List Handle) (i : Nat) (h : Handle) (hget : hs[i]? = some h) :
    ∃ R, (grants hs).Perm (grants [h] ++ R) ∧
      ∀ h1, (grants (hs.set i h1)).Perm (grants [h1] ++ R) := by
  obtain ⟨A, B, rfl, hset⟩ := split_at hs i h hget
  refine ⟨grants A ++ grants B, ?_, ?_⟩
  · rw [grants_append, grants_cons]
    exact List.perm_append_comm_assoc _ _ _
  · intro h1
    rw [hset h1, grants_append, grants_cons]
    exact List.perm_append_comm_assoc _ _ _

theorem grants_set_set (hs : List Handle) (i j : Nat) (hi hj hi1 hj1 : Handle)
    (hgi : hs[i]? = some hi) (hgj : hs[j]? = some hj) (hx : grants [hi1] = grants [hj]) :
    ∃ R, (grants hs).Perm (grants [hi] ++ R) ∧
      (grants ((hs.set i hi1).set j hj1)).Perm (grants [hj1] ++ R) := by
  by_cases hij : i = j
  · subst hij
    obtain ⟨R, hp, hp1⟩ := grants_set hs i hi hgi
    exact ⟨R, hp, by rw [List.set_set]; exact hp1 hj1⟩
  · obtain ⟨R1, hp1, hq1⟩ := grants_set hs i hi hgi
    have hgj1 : (hs.set i hi1)[j]? = some hj := by
      rw [List.getElem?_set_ne hij]; exact hgj
    obtain ⟨R2, hp2, hq2⟩ := grants_set (hs.set i hi1) j hj hgj1
    have hR : R1.Perm R2 := by
      have h1 := (hq1 hi1).symm.trans hp2
      rw [hx] at h1
      exact (List.perm_append_left_iff _).mp h1
    exact ⟨R1, hp1, (hq2 hj1).trans ((List.perm_append_left_iff _).mpr hR.symm)⟩

theorem live_some (s : Sys) (i : Nat) (h : Handle) (hl : s.live i = some h) :
    s.handles[i]? = some h ∧ h.alive = true := by
  unfold Sys.live at hl
  split at hl
  · rename_i h1 hget
    split at hl
    · simp only [Option.some.injEq] at hl
      subst hl
      exact ⟨hget, by assumption⟩
    · simp at hl
  · simp at hl

theorem live_of (s : Sys) (i : Nat) (h : Handle) (hget : s.handles[i]? = some h)
    (ha : h.alive = true) : s.live i = some h := by
  simp [Sys.live, hget, ha]

/-! ## Calls on the mutex -/

theorem andThen_returns {α β : Type} (o : Outcome α) (f : α → β) (b : β)
    (h : o.andThen f = .returns b) : ∃ a, o = .returns a ∧ f a = b := by
  cases o <;> simp [Outcome.andThen] at h
  exact ⟨_, rfl, h⟩

theorem lock_returns (maxLevels : Nat) (ctx : Ctx) (m m1 : LockState)
    (h : recursive_mutex_lock maxLevels ctx m = .returns m1) :
    m1 = .Held ctx (m.depth + 1) ∧ (m = .Free ∨ ∃ n, m = .Held ctx n ∧ n < maxLevels) := by
  cases m with
  | Free => simp [recursive_mutex_lock] at h; simp [← h, LockState.depth]
  | Held o n =>
    simp only [recursive_mutex_lock] at h
    split at h
    · split at h
      · simp at h; subst_vars; simp [LockState.depth]; assumption
      · simp at h
    · simp at h

theorem unlock_returns (ctx : Ctx) (m m1 : LockState)
    (h : recursive_mutex_unlock ctx m = .returns m1) :
    ∃ n, m = .Held ctx n ∧ m1 = if n ≤ 1 then .Free else .Held ctx (n - 1) := by
  cases m with
  | Free => simp [recursive_mutex_unlock] at h
  | Held o n =>
    simp only [recursive_mutex_unlock] at h
    split at h
    · subst_vars
      refine ⟨n, rfl, ?_⟩
      split at h
      · rename_i hn
        simp at h
        simp [hn, h]
      · rename_i hn
        simp at h
        simp [hn, h]
    · simp at h

theorem try_lock_true (maxLevels : Nat) (c : Ctx) (m : LockState)
    (h : (recursive_mutex_try_lock maxLevels c m).2 = true) :
    recursive_mutex_lock maxLevels c m = .returns (recursive_mutex_try_lock maxLevels c m).1 := by
  cases m with
  | Free => simp [recursive_mutex_try_lock, recursive_mutex_lock]
  | Held o n =>
    simp only [recursive_mutex_try_lock] at h ⊢
    split at h
    · rename_i hc
      simp [recursive_mutex_lock, hc.1, hc.2]
    · simp at h

theorem try_lock_false (maxLevels : Nat) (c : Ctx) (m : LockState)
    (h : (recursive_mutex_try_lock maxLevels c m).2 = false) :
    (recursive_mutex_try_lock maxLevels c m).1 = m := by
  cases m with
  | Free => simp [recursive_mutex_try_lock] at h
  | Held o n =>
    simp only [recursive_mutex_try_lock] at h ⊢
    split at h
    · simp at h
    · rename_i hc
      simp [hc]

theorem unlock_after_lock (maxLevels : Nat) (ctx : Ctx) (s s1 : LockState) (hwf : s.wf = true)
    (h : recursive_mutex_lock maxLevels ctx s = .returns s1) :
    recursive_mutex_unlock ctx s1 = .returns s := by
  obtain ⟨h1, h2⟩ := lock_returns _ _ _ _ h
  subst h1
  rcases h2 with rfl | ⟨n, rfl, _⟩
  · simp [recursive_mutex_unlock, LockState.depth]
  · simp [LockState.wf] at hwf
    simp [recursive_mutex_unlock, LockState.depth]
    omega

/-! ## Calls on a handle -/

theorem ctor_returns (maxLevels : Nat) (ctx : Ctx) (ref : MutexRef) (m : LockState)
    (r : LockState × unique_lock) (h : unique_lock_ctor maxLevels ctx ref m = .returns r) :
    recursive_mutex_lock maxLevels ctx m = .returns r.1 ∧ r.2 = ⟨some ref, true⟩ := by
  unfold unique_lock_ctor at h
  split at h <;> simp at h
  subst h
  simp [*]

theorem dtor_returns (c : Ctx) (lk : unique_lock) (m m1 : LockState)
    (h : unique_lock_dtor c lk m = .returns m1) :
    (lk.owns = true ∧ recursive_mutex_unlock c m = .returns m1) ∨ (lk.owns = false ∧ m1 = m) := by
  unfold unique_lock_dtor at h
  split at h
  · exact Or.inl ⟨by assumption, h⟩
  · simp at h
    exact Or.inr ⟨by simpa using ‹¬ lk.owns = true›, h.symm⟩

theorem lock_member_returns (maxLevels : Nat) (c : Ctx) (lk : unique_lock) (m : LockState)
    (r : LockState × unique_lock) (h : unique_lock_lock maxLevels c lk m = .returns r) :
    lk.owns = false ∧ recursive_mutex_lock maxLevels c m = .returns r.1 ∧
      r.2 = { lk with owns := true } := by
  unfold unique_lock_lock at h
  split at h
  · simp at h
  · split at h
    · simp at h
    · rename_i hown
      split at h <;> simp at h
      subst h
      simp [*] at *

theorem try_lock_member_returns (maxLevels : Nat) (c : Ctx) (lk : unique_lock) (m : LockState)
    (r : LockState × unique_lock) (h : unique_lock_try_lock maxLevels c lk m = .returns r) :
    lk.owns = false ∧ r.2.pm = lk.pm ∧
      ((r.2.owns = true ∧ recursive_mutex_lock maxLevels c m = .returns r.1) ∨
        (r.2.owns = false ∧ r.1 = m)) := by
  unfold unique_lock_try_lock at h
  split at h
  · simp at h
  · split at h
    · simp at h
    · rename_i hown
      simp at h
      subst h
      refine ⟨by simpa using hown, rfl, ?_⟩
      cases hb : (recursive_mutex_try_lock maxLevels c m).2
      · exact Or.inr ⟨rfl, try_lock_false _ _ _ hb⟩
      · exact Or.inl ⟨rfl, try_lock_true _ _ _ hb⟩

theorem unlock_member_returns (c : Ctx) (lk : unique_lock) (m : LockState)
    (r : LockState × unique_lock) (h : unique_lock_unlock c lk m = .returns r) :
    lk.owns = true ∧ recursive_mutex_unlock c m = .returns r.1 ∧
      r.2 = { lk with owns := false } := by
  unfold unique_lock_unlock at h
  split at h
  · rename_i hown
    split at h <;> simp at h
    subst h
    simp [*]
  · simp at h

theorem move_assign_returns (c : Ctx) (lk u : unique_lock) (m : LockState)
    (r : LockState × unique_lock × unique_lock)
    (h : unique_lock_move_assign c lk u m = .returns r) :
    unique_lock_dtor c lk m = .returns r.1 ∧ r.2.1 = ⟨u.pm, u.owns⟩ ∧ r.2.2 = ⟨none, false⟩ := by
  unfold unique_lock_move_assign at h
  obtain ⟨m1, h1, rfl⟩ := andThen_returns _ _ _ h
  exact ⟨h1, rfl, rfl⟩

/-! ## The invariant -/

theorem LockInv.perm {m : LockState} {G G1 : List (Ctx × Nat)} {acq : Nat} {rel : List Nat}
    (h : LockInv m G acq rel) (hp : G.Perm G1) : LockInv m G1 acq rel := by
  obtain ⟨hwf, hown, hcnt, hbal, hnd, hfr⟩ := h
  refine ⟨hwf, ?_, ?_, hbal, ?_, ?_⟩
  · intro g hg; exact hown g (hp.mem_iff.mpr hg)
  · rw [← hp.length_eq]; exact hcnt
  · exact (List.Perm.nodup_iff ((hp.map Prod.snd).append_right rel)).mp hnd
  · intro x hx
    exact hfr x ((((hp.map Prod.snd).append_right rel)).mem_iff.mpr hx)

theorem LockInv.lock {maxLevels : Nat} {ctx : Ctx} {m m1 : LockState} {G : List (Ctx × Nat)}
    {acq : Nat} {rel : List Nat} (h : LockInv m G acq rel)
    (hl : recursive_mutex_lock maxLevels ctx m = .returns m1) :
    LockInv m1 ((ctx, acq) :: G) (acq + 1) rel := by
  obtain ⟨hwf, hown, hcnt, hbal, hnd, hfr⟩ := h
  obtain ⟨h1, h2⟩ := lock_returns _ _ _ _ hl
  subst h1
  refine ⟨by simp [LockState.wf], ?_, ?_, ?_, ?_, ?_⟩
  · intro g hg
    simp at hg
    rcases hg with rfl | hg
    · exact ⟨_, rfl⟩
    · obtain ⟨n, hn⟩ := hown g hg
      rcases h2 with rfl | ⟨k, rfl, _⟩
      · simp at hn
      · simp at hn; exact ⟨_, by rw [hn.1]⟩
  · show G.length + 1 ≤ m.depth + 1
    omega
  · show rel.length + (m.depth + 1) = acq + 1
    omega
  · simp only [List.map_cons, List.cons_append, List.nodup_cons]
    refine ⟨?_, hnd⟩
    intro hmem
    exact absurd (hfr _ hmem) (by simp)
  · intro x hx
    simp only [List.map_cons, List.cons_append, List.mem_cons] at hx
    rcases hx with rfl | hx
    · simp
    · exact Nat.lt_succ_of_lt (hfr x hx)

theorem LockInv.unlock_by {c t : Ctx} {o : Nat} {m m1 : LockState} {G : List (Ctx × Nat)}
    {acq : Nat} {rel : List Nat} (h : LockInv m ((c, o) :: G) acq rel)
    (hu : recursive_mutex_unlock t m = .returns m1) : t = c := by
  obtain ⟨n, hn⟩ := h.owner (c, o) (by simp)
  obtain ⟨k, hk, -⟩ := unlock_returns _ _ _ hu
  rw [hn] at hk
  simp at hk
  exact hk.1.symm

theorem LockInv.unlock {c : Ctx} {o : Nat} {m m1 : LockState} {G : List (Ctx × Nat)}
    {acq : Nat} {rel : List Nat} (h : LockInv m ((c, o) :: G) acq rel)
    (hu : recursive_mutex_unlock c m = .returns m1) :
    LockInv m1 G acq (rel ++ [o]) := by
  obtain ⟨hwf, hown, hcnt, hbal, hnd, hfr⟩ := h
  obtain ⟨n, rfl, rfl⟩ := unlock_returns _ _ _ hu
  simp [LockState.depth, LockState.wf] at hcnt hbal hwf
  refine ⟨?_, ?_, ?_, ?_, ?_, ?_⟩
  · split <;> simp [LockState.wf]; omega
  · intro g hg
    split
    · have : G.length = 0 := by omega
      simp [List.length_eq_zero] at this
      subst this
      simp at hg
    · obtain ⟨k, hk⟩ := hown g (by simp [hg])
      simp at hk
      exact ⟨_, by rw [hk.1]⟩
  · split
    · show G.length ≤ 0
      omega
    · show G.length ≤ n - 1
      omega
  · rw [List.length_append, List.length_singleton]
    split
    · show rel.length + 1 + 0 = acq
      omega
    · show rel.length + 1 + (n - 1) = acq
      omega
  · have hp : (((c, o) :: G).map Prod.snd ++ rel).Perm (G.map Prod.snd ++ (rel ++ [o])) := by
      simp only [List.map_cons, List.cons_append]
      rw [← List.append_assoc]
      exact (List.perm_append_singleton o _).symm
    exact (List.Perm.nodup_iff hp).mp hnd
  · intro x hx
    apply hfr x
    simp only [List.map_cons, List.cons_append, List.mem_cons, List.mem_append,
      List.mem_singleton] at hx ⊢
    tauto

theorem LockInv.drop {c : Ctx} {o : Nat} {m : LockState} {G : List (Ctx × Nat)}
    {acq : Nat} {rel : List Nat} (h : LockInv m ((c, o) :: G) acq rel) :
    LockInv m G acq rel := by
  obtain ⟨hwf, hown, hcnt, hbal, hnd, hfr⟩ := h
  refine ⟨hwf, fun g hg => hown g (by simp [hg]), ?_, hbal, ?_, ?_⟩
  · simp only [List.length_cons] at hcnt
    omega
  · simp only [List.map_cons, List.cons_append, List.nodup_cons] at hnd
    exact hnd.2
  · intro x hx
    exact hfr x (by simp only [List.map_cons, List.cons_append, List.mem_cons]; exact Or.inr hx)

theorem LockInv.dtor {t : Ctx} {h : Handle} {m m1 : LockState} {R : List (Ctx × Nat)}
    {acq : Nat} {rel : List Nat} (ha : h.alive = true)
    (hinv : LockInv m (grants [h] ++ R) acq rel)
    (hd : unique_lock_dtor t h.lk m = .returns m1) :
    LockInv m1 R acq (if h.lk.owns then rel ++ [h.origin] else rel) := by
  rcases dtor_returns _ _ _ _ hd with ⟨ho, hu⟩ | ⟨ho, rfl⟩
  · rw [grants_holding h (by simp [Handle.holding, ha, ho])] at hinv
    have ht := hinv.unlock_by hu
    subst ht
    rw [if_pos ho]
    exact hinv.unlock hu
  · rw [grants_not_holding h (by simp [Handle.holding, ho])] at hinv
    simpa [ho] using hinv

theorem LockInv.forget {h : Handle} {m : LockState} {R : List (Ctx × Nat)}
    {acq : Nat} {rel : List Nat} (hinv : LockInv m (grants [h] ++ R) acq rel) :
    LockInv m R acq rel := by
  by_cases hh : h.holding = true
  · rw [grants_holding h hh] at hinv
    exact hinv.drop
  · rw [grants_not_holding h (by simpa using hh)] at hinv
    simpa using hinv

theorem inv_step (maxLevels : Nat) (s s1 : Sys) (op : Op) (hinv : Inv s)
    (hstep : step maxLevels s op = .returns s1) : Inv s1 := by
  unfold Inv at hinv ⊢
  cases op with
  | acquire ctx =>
    simp only [step, acquireGlobalLock] at hstep
    obtain ⟨r, hr, rfl⟩ := andThen_returns _ _ _ hstep
    obtain ⟨hl, hr2⟩ := ctor_returns _ _ _ _ _ hr
    simp only
    refine (hinv.lock hl).perm ?_
    rw [grants_append, grants_holding _ (by simp [Handle.holding, hr2])]
    exact (List.perm_append_singleton _ _).symm
  | destroy t i =>
    simp only [step] at hstep
    cases hl : s.live i with
    | none => simp [hl] at hstep
    | some h =>
      simp only [hl] at hstep
      obtain ⟨hget, halive⟩ := live_some s i h hl
      obtain ⟨R, hp, hq⟩ := grants_set s.handles i h hget
      obtain ⟨m1, hr, rfl⟩ := andThen_returns _ _ _ hstep
      simp only
      refine ((hinv.perm hp).dtor halive hr).perm ?_
      have := hq { h with alive := false }
      rw [grants_not_holding _ (by simp [Handle.holding])] at this
      exact this.symm
  | move i =>
    simp only [step] at hstep
    cases hl : s.live i with
    | none => simp [hl] at hstep
    | some h =>
      simp only [hl, Outcome.returns.injEq] at hstep
      obtain ⟨hget, halive⟩ := live_some s i h hl
      obtain ⟨R, hp, hq⟩ := grants_set s.handles i h hget
      subst hstep
      simp only [unique_lock_move]
      refine (hinv.perm hp).perm ?_
      rw [grants_append]
      have h1 := hq { h with lk := ⟨none, false⟩ }
      rw [grants_not_holding _ (by simp [Handle.holding])] at h1
      have h2 : grants [(⟨h.ctx, ⟨h.lk.pm, h.lk.owns⟩, true, h.origin⟩ : Handle)] = grants [h] := by
        cases ho : h.lk.owns
        · rw [grants_not_holding _ (by simp [Handle.holding, ho]),
            grants_not_holding _ (by simp [Handle.holding, ho])]
        · rw [grants_holding _ (by simp [Handle.holding, ho]),
            grants_holding _ (by simp [Handle.holding, ho, halive])]
      rw [h2]
      exact (List.perm_append_comm.trans (h1.symm.append_right _))
  | move_assign t i j =>
    simp only [step] at hstep
    cases hli : s.live i with
    | none => simp [hli] at hstep
    | some hi =>
      cases hlj : s.live j with
      | none => simp [hli, hlj] at hstep
      | some hj =>
        simp only [hli, hlj] at hstep
        obtain ⟨hgi, hai⟩ := live_some s i hi hli
        obtain ⟨hgj, haj⟩ := live_some s j hj hlj
        obtain ⟨r, hr, rfl⟩ := andThen_returns _ _ _ hstep
        obtain ⟨hd, hr1, hr2⟩ := move_assign_returns _ _ _ _ _ hr
        simp only [hr1, hr2]
        have hx : grants [(⟨hj.ctx, ⟨hj.lk.pm, hj.lk.owns⟩, hi.alive, hj.origin⟩ : Handle)] =
            grants [hj] := by
          cases ho : hj.lk.owns
          · rw [grants_not_holding _ (by simp [Handle.holding, ho]),
              grants_not_holding _ (by simp [Handle.holding, ho])]
          · rw [grants_holding _ (by simp [Handle.holding, ho, hai]),
              grants_holding _ (by simp [Handle.holding, ho, haj])]
        obtain ⟨R, hp, hq⟩ := grants_set_set s.handles i j hi hj _
          { hj with lk := ⟨none, false⟩ } hgi hgj hx
        rw [grants_not_holding _ (by simp [Handle.holding])] at hq
        exact ((hinv.perm hp).dtor hai hd).perm hq.symm
  | swap i j =>
    simp only [step] at hstep
    cases hli : s.live i with
    | none => simp [hli] at hstep
    | some hi =>
      cases hlj : s.live j with
      | none => simp [hli, hlj] at hstep
      | some hj =>
        simp only [hli, hlj, Outcome.returns.injEq] at hstep
        obtain ⟨hgi, hai⟩ := live_some s i hi hli
        obtain ⟨hgj, haj⟩ := live_some s j hj hlj
        subst hstep
        simp only [unique_lock_swap]
        have hx : grants [(⟨hj.ctx, hj.lk, hi.alive, hj.origin⟩ : Handle)] = grants [hj] := by
          cases ho : hj.lk.owns
          · rw [grants_not_holding _ (by simp [Handle.holding, ho]),
              grants_not_holding _ (by simp [Handle.holding, ho])]
          · rw [grants_holding _ (by simp [Handle.holding, ho, hai]),
              grants_holding _ (by simp [Handle.holding, ho, haj])]
        have hy : grants [(⟨hi.ctx, hi.lk, hj.alive, hi.origin⟩ : Handle)] = grants [hi] := by
          cases ho : hi.lk.owns
          · rw [grants_not_holding _ (by simp [Handle.holding, ho]),
              grants_not_holding _ (by simp [Handle.holding, ho])]
          · rw [grants_holding _ (by simp [Handle.holding, ho, haj]),
              grants_holding _ (by simp [Handle.holding, ho, hai])]
        obtain ⟨R, hp, hq⟩ := grants_set_set s.handles i j hi hj _
          ⟨hi.ctx, hi.lk, hj.alive, hi.origin⟩ hgi hgj hx
        rw [hy] at hq
        exact hinv.perm (hp.trans hq.symm)
  | lock t i =>
    simp only [step] at hstep
    cases hl : s.live i with
    | none => simp [hl] at hstep
    | some h =>
      simp only [hl] at hstep
      obtain ⟨hget, halive⟩ := live_some s i h hl
      obtain ⟨R, hp, hq⟩ := grants_set s.handles i h hget
      obtain ⟨r, hr, rfl⟩ := andThen_returns _ _ _ hstep
      obtain ⟨ho, hlk, hr2⟩ := lock_member_returns _ _ _ _ _ hr
      simp only
      have h0 := hinv.perm hp
      rw [grants_not_holding h (by simp [Handle.holding, ho])] at h0
      refine (h0.lock hlk).perm ?_
      have := hq ⟨t, r.2, h.alive, s.acquired⟩
      rw [grants_holding _ (by simp [Handle.holding, halive, hr2])] at this
      exact this.symm
  | try_lock t i =>
    simp only [step] at hstep
    cases hl : s.live i with
    | none => simp [hl] at hstep
    | some h =>
      simp only [hl] at hstep
      obtain ⟨hget, halive⟩ := live_some s i h hl
      obtain ⟨R, hp, hq⟩ := grants_set s.handles i h hget
      obtain ⟨r, hr, rfl⟩ := andThen_returns _ _ _ hstep
      obtain ⟨ho, -, hcase⟩ := try_lock_member_returns _ _ _ _ _ hr
      simp only
      have h0 := hinv.perm hp
      rw [grants_not_holding h (by simp [Handle.holding, ho])] at h0
      rcases hcase with ⟨hr2, hlk⟩ | ⟨hr2, hm⟩
      · simp only [hr2, if_true]
        refine (h0.lock hlk).perm ?_
        have := hq ⟨t, r.2, h.alive, s.acquired⟩
        rw [grants_holding _ (by simp [Handle.holding, halive, hr2])] at this
        exact this.symm
      · have := hq ⟨h.ctx, r.2, h.alive, h.origin⟩
        rw [grants_not_holding _ (by simp [Handle.holding, hr2])] at this
        simp only [hr2, Bool.false_eq_true, if_false, hm]
        exact h0.perm this.symm
  | unlock t i =>
    simp only [step] at hstep
    cases hl : s.live i with
    | none => simp [hl] at hstep
    | some h =>
      simp only [hl] at hstep
      obtain ⟨hget, halive⟩ := live_some s i h hl
      obtain ⟨R, hp, hq⟩ := grants_set s.handles i h hget
      obtain ⟨r, hr, rfl⟩ := andThen_returns _ _ _ hstep
      obtain ⟨ho, hu, hr2⟩ := unlock_member_returns _ _ _ _ hr
      simp only
      have h0 := hinv.perm hp
      rw [grants_holding h (by simp [Handle.holding, halive, ho])] at h0
      have ht := h0.unlock_by hu
      subst ht
      refine (h0.unlock hu).perm ?_
      have := hq { h with lk := r.2 }
      rw [grants_not_holding _ (by simp [Handle.holding, hr2])] at this
      exact this.symm
  | release i =>
    simp only [step] at hstep
    cases hl : s.live i with
    | none => simp [hl] at hstep
    | some h =>
      simp only [hl, Outcome.returns.injEq] at hstep
      obtain ⟨hget, halive⟩ := live_some s i h hl
      obtain ⟨R, hp, hq⟩ := grants_set s.handles i h hget
      subst hstep
      simp only [unique_lock_release]
      refine (hinv.perm hp).forget.perm ?_
      have := hq { h with lk := ⟨none, false⟩ }
      rw [grants_not_holding _ (by simp [Handle.holding])] at this
      exact this.symm
  | observe i =>
    simp only [step] at hstep
    cases hl : s.live i with
    | none => simp [hl] at hstep
    | some h =>
      simp only [hl, Outcome.returns.injEq] at hstep
      subst hstep
      exact hinv
  | construct t how =>
    cases how with
    | default =>
      simp only [step, Outcome.returns.injEq] at hstep
      subst hstep
      simp only
      rw [grants_append,
        grants_not_holding _ (by simp [Handle.holding, unique_lock_default]), List.append_nil]
      exact hinv
    | defer_lock =>
      simp only [step, Outcome.returns.injEq] at hstep
      subst hstep
      simp only
      rw [grants_append,
        grants_not_holding _ (by simp [Handle.holding, unique_lock_ctor_defer]), List.append_nil]
      exact hinv
    | try_to_lock =>
      simp only [step, unique_lock_ctor_try, Outcome.returns.injEq] at hstep
      subst hstep
      simp only
      by_cases hb : (recursive_mutex_try_lock maxLevels t s.g_mutex).2 = true
      · rw [if_pos hb]
        refine (hinv.lock (try_lock_true _ _ _ hb)).perm ?_
        rw [grants_append, grants_holding _ (by simp [Handle.holding, hb])]
        exact (List.perm_append_singleton _ _).symm
      · have hb1 : (recursive_mutex_try_lock maxLevels t s.g_mutex).2 = false := by
          simpa using hb
        rw [if_neg hb, try_lock_false _ _ _ hb1, grants_append,
          grants_not_holding _ (by simp [Handle.holding, hb1]), List.append_nil]
        exact hinv

theorem inv_exec (maxLevels : Nat) (ops : List Op) (s s1 : Sys) (hinv : Inv s)
    (hexec : exec maxLevels s ops = some s1) : Inv s1 := by
  induction ops generalizing s with
  | nil =>
    simp [exec] at hexec
    exact hexec ▸ hinv
  | cons op ops ih =>
    simp only [exec] at hexec
    split at hexec
    · rename_i s2 hs2
      exact ih s2 (inv_step maxLevels s s2 op hinv hs2) hexec
    · simp at hexec

theorem inv_init : Inv Sys.init := by
  constructor <;> simp [Sys.init, LockState.wf, grants, LockState.depth]

theorem inv_reachable (maxLevels : Nat) (ops : List Op) (s : Sys)
    (hexec : exec maxLevels Sys.init ops = some s) : Inv s :=
  inv_exec maxLevels ops Sys.init s inv_init hexec

/-! ## The acquire step -/

theorem acquire_free (maxLevels : Nat) (ctx : Ctx) :
    acquireGlobalLock maxLevels ctx .Free = .returns (.Held ctx 1, ⟨some .g_mutex, true⟩) := rfl

theorem acquire_reentrant (maxLevels : Nat) (ctx : Ctx) (n : Nat) (h : n < maxLevels) :
    acquireGlobalLock maxLevels ctx (.Held ctx n) =
      .returns (.Held ctx (n + 1), ⟨some .g_mutex, true⟩) := by
  simp [acquireGlobalLock, unique_lock_ctor, recursive_mutex_lock, h]

theorem acquire_at_limit (maxLevels : Nat) (ctx : Ctx) (n : Nat) (h : maxLevels ≤ n) :
    acquireGlobalLock maxLevels ctx (.Held ctx n) = .throws := by
  simp [acquireGlobalLock, unique_lock_ctor, recursive_mutex_lock, Nat.not_lt.mpr h]

theorem acquire_other (maxLevels : Nat) (A B : Ctx) (n : Nat) (h : A ≠ B) :
    acquireGlobalLock maxLevels B (.Held A n) = .blocks := by
  simp [acquireGlobalLock, unique_lock_ctor, recursive_mutex_lock, h]

/-- C3 (as amended): acquire by `ctx` in state `Free` returns and yields
`Held(ctx, 1)`; acquire by `ctx` in state `Held(ctx, n)` returns without blocking
and yields exactly `Held(ctx, n + 1)`, owner unchanged, for every `n` below the
implementation limit on ownership levels; for `n` at or above the limit the
call throws `std::system_error` instead. -/
theorem acquire_transitions (maxLevels : Nat) (ctx : Ctx) (n : Nat) :
    acquireGlobalLock maxLevels ctx .Free = .returns (.Held ctx 1, ⟨some .g_mutex, true⟩) ∧
    acquireGlobalLock maxLevels ctx (.Held ctx n) =
      (if n < maxLevels then .returns (.Held ctx (n + 1), ⟨some .g_mutex, true⟩)
        else .throws) := by
  refine ⟨acquire_free maxLevels ctx, ?_⟩
  by_cases hn : n < maxLevels
  · rw [if_pos hn]
    exact acquire_reentrant maxLevels ctx n hn
  · rw [if_neg hn]
    exact acquire_at_limit maxLevels ctx n (Nat.le_of_not_lt hn)

/-- C3, witness: with a limit of 2048 levels, thread 0 at depth 2047. -/
theorem acquire_transitions_witness :
    acquireGlobalLock 2048 0 .Free = .returns (.Held 0 1, ⟨some .g_mutex, true⟩) ∧
    acquireGlobalLock 2048 0 (.Held 0 2047) =
      (if 2047 < 2048 then .returns (.Held 0 (2047 + 1), ⟨some .g_mutex, true⟩)
        else .throws) :=
  acquire_transitions 2048 0 2047

/-- C3, counterexample: with a limit of 2048 levels (an 11-bit recursion
counter), acquire by thread 0 in state `Held(0, 2048)` does not yield
`Held(0, 2049)`: the call throws. -/
theorem acquire_transitions_fails_at_limit :
    ¬ (acquireGlobalLock 2048 0 (.Held 0 2048) =
        .returns (.Held 0 2049, ⟨some .g_mutex, true⟩)) := by
  decide

/-- C6 (as amended): for every thread and every lock state the call returns a
handle that owns the lock (and the lock is then held by the caller), or blocks,
or, only when the caller already holds the lock at the implementation limit of
ownership levels, throws; its behaviour is never undefined and it never returns
a handle that does not own. -/
theorem acquire_outcomes (maxLevels : Nat) (ctx : Ctx) (s : LockState) :
    (∃ k, acquireGlobalLock maxLevels ctx s =
        .returns (.Held ctx (k + 1), ⟨some .g_mutex, true⟩)) ∨
    (acquireGlobalLock maxLevels ctx s = .blocks ∧ ∃ o n, s = .Held o n ∧ o ≠ ctx) ∨
    (acquireGlobalLock maxLevels ctx s = .throws ∧ ∃ n, s = .Held ctx n ∧ maxLevels ≤ n) := by
  cases s with
  | Free => exact Or.inl ⟨0, rfl⟩
  | Held o n =>
    by_cases ho : o = ctx
    · subst ho
      by_cases hn : n < maxLevels
      · exact Or.inl ⟨n, acquire_reentrant maxLevels o n hn⟩
      · exact Or.inr (Or.inr ⟨acquire_at_limit maxLevels o n (Nat.le_of_not_lt hn), n, rfl,
          Nat.le_of_not_lt hn⟩)
    · exact Or.inr (Or.inl ⟨acquire_other maxLevels o ctx n ho, o, n, rfl, ho⟩)

/-- C6, counterexample: with a limit of 2048 levels, the call by thread 1 while
it holds the lock 2048 levels deep ends in an exception. -/
theorem acquire_throws_at_limit :
    acquireGlobalLock 2048 1 (.Held 1 2048) = .throws := by
  decide

theorem step_owner (maxLevels : Nat) (s s1 : Sys) (op : Op) (A : Ctx) (n : Nat)
    (hs : s.g_mutex = .Held A n) (hstep : step maxLevels s op = .returns s1) :
    s1.g_mutex = .Free ∨ ∃ k, s1.g_mutex = .Held A k := by
  have hlock : ∀ c m1, recursive_mutex_lock maxLevels c s.g_mutex = .returns m1 →
      ∃ k, m1 = .Held A k := by
    intro c m1 h
    obtain ⟨h1, h2⟩ := lock_returns _ _ _ _ h
    rw [hs] at h2
    rcases h2 with h2 | ⟨k, h2, _⟩
    · simp at h2
    · simp at h2
      exact ⟨_, by rw [h1, h2.1]⟩
  have hunlock : ∀ c m1, recursive_mutex_unlock c s.g_mutex = .returns m1 →
      m1 = .Free ∨ ∃ k, m1 = .Held A k := by
    intro c m1 h
    obtain ⟨k, h1, h2⟩ := unlock_returns _ _ _ h
    rw [hs] at h1
    simp at h1
    subst h2
    split
    · exact Or.inl rfl
    · exact Or.inr ⟨_, by rw [h1.1]⟩
  have hdtor : ∀ c lk m1, unique_lock_dtor c lk s.g_mutex = .returns m1 →
      m1 = .Free ∨ ∃ k, m1 = .Held A k := by
    intro c lk m1 h
    rcases dtor_returns _ _ _ _ h with ⟨_, hu⟩ | ⟨_, rfl⟩
    · exact hunlock _ _ hu
    · exact Or.inr ⟨n, hs⟩
  cases op with
  | acquire ctx =>
    simp only [step, acquireGlobalLock] at hstep
    obtain ⟨r, hr, rfl⟩ := andThen_returns _ _ _ hstep
    exact Or.inr (hlock _ _ (ctor_returns _ _ _ _ _ hr).1)
  | destroy t i =>
    simp only [step] at hstep
    split at hstep
    · simp at hstep
    · obtain ⟨m1, hr, rfl⟩ := andThen_returns _ _ _ hstep
      exact hdtor _ _ _ hr
  | move i =>
    simp only [step] at hstep
    split at hstep
    · simp at hstep
    · simp only [Outcome.returns.injEq] at hstep
      subst hstep
      exact Or.inr ⟨n, hs⟩
  | move_assign t i j =>
    simp only [step] at hstep
    split at hstep
    · obtain ⟨r, hr, rfl⟩ := andThen_returns _ _ _ hstep
      exact hdtor _ _ _ (move_assign_returns _ _ _ _ _ hr).1
    · simp at hstep
  | swap i j =>
    simp only [step] at hstep
    split at hstep
    · simp only [Outcome.returns.injEq] at hstep
      subst hstep
      exact Or.inr ⟨n, hs⟩
    · simp at hstep
  | lock t i =>
    simp only [step] at hstep
    split at hstep
    · simp at hstep
    · obtain ⟨r, hr, rfl⟩ := andThen_returns _ _ _ hstep
      exact Or.inr (hlock _ _ (lock_member_returns _ _ _ _ _ hr).2.1)
  | try_lock t i =>
    simp only [step] at hstep
    split at hstep
    · simp at hstep
    · obtain ⟨r, hr, rfl⟩ := andThen_returns _ _ _ hstep
      rcases (try_lock_member_returns _ _ _ _ _ hr).2.2 with ⟨_, hl⟩ | ⟨_, hm⟩
      · exact Or.inr (hlock _ _ hl)
      · exact Or.inr ⟨n, by simp [hm, hs]⟩
  | unlock t i =>
    simp only [step] at hstep
    split at hstep
    · simp at hstep
    · obtain ⟨r, hr, rfl⟩ := andThen_returns _ _ _ hstep
      exact hunlock _ _ (unlock_member_returns _ _ _ _ hr).2.1
  | release i =>
    simp only [step] at hstep
    split at hstep
    · simp at hstep
    · simp only [Outcome.returns.injEq] at hstep
      subst hstep
      exact Or.inr ⟨n, hs⟩
  | observe i =>
    simp only [step] at hstep
    split at hstep
    · simp at hstep
    · simp only [Outcome.returns.injEq] at hstep
      subst hstep
      exact Or.inr ⟨n, hs⟩
  | construct t how =>
    cases how with
    | default =>
      simp only [step, Outcome.returns.injEq] at hstep
      subst hstep
      exact Or.inr ⟨n, hs⟩
    | defer_lock =>
      simp only [step, Outcome.returns.injEq] at hstep
      subst hstep
      exact Or.inr ⟨n, hs⟩
    | try_to_lock =>
      simp only [step, unique_lock_ctor_try, Outcome.returns.injEq] at hstep
      subst hstep
      by_cases hb : (recursive_mutex_try_lock maxLevels t s.g_mutex).2 = true
      · exact Or.inr (hlock _ _ (try_lock_true _ _ _ hb))
      · refine Or.inr ⟨n, ?_⟩
        show (recursive_mutex_try_lock maxLevels t s.g_mutex).1 = .Held A n
        rw [try_lock_false _ _ _ (by simpa using hb), hs]

/-- C5: for distinct contexts `A` and `B`, in state `Held(A, n)` the acquire
step of `B` is not enabled (the call blocks); no operation of the program takes
the lock from `Held(A, n)` to a state held by another context, so the owner
changes only through `Free`; and in state `Free` the acquire of `B` returns and
yields `Held(B, 1)`. -/
theorem other_context_waits (maxLevels : Nat) (A B : Ctx) (n : Nat) (hAB : A ≠ B) :
    acquireGlobalLock maxLevels B (.Held A n) = .blocks ∧
    (∀ (s s1 : Sys) (op : Op), s.g_mutex = .Held A n → step maxLevels s op = .returns s1 →
      s1.g_mutex = .Free ∨ ∃ k, s1.g_mutex = .Held A k) ∧
    acquireGlobalLock maxLevels B .Free = .returns (.Held B 1, ⟨some .g_mutex, true⟩) :=
  ⟨acquire_other maxLevels A B n hAB,
    fun s s1 op hs hstep => step_owner maxLevels s s1 op A n hs hstep,
    acquire_free maxLevels B⟩

/-- C5, witness: thread 1 against thread 0 holding three levels. -/
theorem other_context_waits_witness :
    acquireGlobalLock 2048 1 (.Held 0 3) = .blocks ∧
    (∀ (s s1 : Sys) (op : Op), s.g_mutex = .Held 0 3 → step 2048 s op = .returns s1 →
      s1.g_mutex = .Free ∨ ∃ k, s1.g_mutex = .Held 0 k) ∧
    acquireGlobalLock 2048 1 .Free = .returns (.Held 1 1, ⟨some .g_mutex, true⟩) :=
  other_context_waits 2048 0 1 3 (by decide)

/-! ## One lock for the whole process -/

theorem memory_acquire (mem : Memory) (maxLevels : Nat) (ctx : Ctx) :
    mem.acquireGlobalLock maxLevels ctx =
      (acquireGlobalLock maxLevels ctx (mem .g_mutex)).andThen fun x =>
        (Function.update mem .g_mutex x.1, x.2) := rfl

theorem memory_acquire_returns (mem mem1 : Memory) (maxLevels : Nat) (ctx : Ctx)
    (h : unique_lock) (hr : mem.acquireGlobalLock maxLevels ctx = .returns (mem1, h)) :
    h.pm = some .g_mutex ∧ (∃ n, mem1 .g_mutex = .Held ctx (n + 1)) ∧
      ∀ k, mem1 (.other k) = mem (.other k) := by
  rw [memory_acquire] at hr
  obtain ⟨x, hx, hxe⟩ := andThen_returns _ _ _ hr
  obtain ⟨hl, hx2⟩ := ctor_returns _ _ _ _ _ hx
  obtain ⟨hm, -⟩ := lock_returns _ _ _ _ hl
  simp only [Prod.mk.injEq] at hxe
  obtain ⟨rfl, rfl⟩ := hxe
  refine ⟨by rw [hx2], ⟨(mem .g_mutex).depth, by simp [hm]⟩, ?_⟩
  intro k
  simp [Function.update]

theorem pointers_step (maxLevels : Nat) (s s1 : Sys) (op : Op)
    (hp : ∀ h ∈ s.handles, h.lk.pm = none ∨ h.lk.pm = some .g_mutex)
    (hstep : step maxLevels s op = .returns s1) :
    ∀ h ∈ s1.handles, h.lk.pm = none ∨ h.lk.pm = some .g_mutex := by
  have hset : ∀ (l : List Handle) (i : Nat) (x : Handle),
      (∀ h ∈ l, h.lk.pm = none ∨ h.lk.pm = some .g_mutex) →
      (x.lk.pm = none ∨ x.lk.pm = some .g_mutex) →
      ∀ h ∈ l.set i x, h.lk.pm = none ∨ h.lk.pm = some .g_mutex := by
    intro l i x hl hx h hm
    rcases List.mem_or_eq_of_mem_set hm with h1 | h1
    · exact hl h h1
    · exact h1 ▸ hx
  have hlive : ∀ i h, s.live i = some h → h.lk.pm = none ∨ h.lk.pm = some .g_mutex :=
    fun i h hl => hp h (List.getElem?_mem (live_some s i h hl).1)
  cases op with
  | acquire ctx =>
    simp only [step, acquireGlobalLock] at hstep
    obtain ⟨r, hr, rfl⟩ := andThen_returns _ _ _ hstep
    obtain ⟨-, hr2⟩ := ctor_returns _ _ _ _ _ hr
    intro h hm
    simp only [List.mem_append, List.mem_singleton] at hm
    rcases hm with hm | rfl
    · exact hp h hm
    · exact Or.inr (by simp [hr2])
  | destroy t i =>
    simp only [step] at hstep
    cases hl : s.live i with
    | none => simp [hl] at hstep
    | some h0 =>
      simp only [hl] at hstep
      obtain ⟨m1, -, rfl⟩ := andThen_returns _ _ _ hstep
      exact hset _ _ _ hp (hlive i h0 hl)
  | move i =>
    simp only [step] at hstep
    cases hl : s.live i with
    | none => simp [hl] at hstep
    | some h0 =>
      simp only [hl, Outcome.returns.injEq] at hstep
      subst hstep
      intro h hm
      simp only [List.mem_append, List.mem_singleton] at hm
      rcases hm with hm | rfl
      · exact hset _ _ _ hp (Or.inl rfl) h hm
      · exact hlive i h0 hl
  | move_assign t i j =>
    simp only [step] at hstep
    cases hli : s.live i with
    | none => simp [hli] at hstep
    | some hi =>
      cases hlj : s.live j with
      | none => simp [hli, hlj] at hstep
      | some hj =>
        simp only [hli, hlj] at hstep
        obtain ⟨r, hr, rfl⟩ := andThen_returns _ _ _ hstep
        obtain ⟨-, hr1, hr2⟩ := move_assign_returns _ _ _ _ _ hr
        refine hset _ _ _ (hset _ _ _ hp ?_) ?_
        · simp only [hr1]
          exact hlive j hj hlj
        · rw [hr2]
          exact Or.inl rfl
  | swap i j =>
    simp only [step] at hstep
    cases hli : s.live i with
    | none => simp [hli] at hstep
    | some hi =>
      cases hlj : s.live j with
      | none => simp [hli, hlj] at hstep
      | some hj =>
        simp only [hli, hlj, Outcome.returns.injEq] at hstep
        subst hstep
        exact hset _ _ _ (hset _ _ _ hp (hlive j hj hlj)) (hlive i hi hli)
  | lock t i =>
    simp only [step] at hstep
    cases hl : s.live i with
    | none => simp [hl] at hstep
    | some h0 =>
      simp only [hl] at hstep
      obtain ⟨r, hr, rfl⟩ := andThen_returns _ _ _ hstep
      obtain ⟨-, -, hr2⟩ := lock_member_returns _ _ _ _ _ hr
      refine hset _ _ _ hp ?_
      simp only [hr2]
      exact hlive i h0 hl
  | try_lock t i =>
    simp only [step] at hstep
    cases hl : s.live i with
    | none => simp [hl] at hstep
    | some h0 =>
      simp only [hl] at hstep
      obtain ⟨r, hr, rfl⟩ := andThen_returns _ _ _ hstep
      obtain ⟨-, hr2, -⟩ := try_lock_member_returns _ _ _ _ _ hr
      refine hset _ _ _ hp ?_
      simp only [hr2]
      exact hlive i h0 hl
  | unlock t i =>
    simp only [step] at hstep
    cases hl : s.live i with
    | none => simp [hl] at hstep
    | some h0 =>
      simp only [hl] at hstep
      obtain ⟨r, hr, rfl⟩ := andThen_returns _ _ _ hstep
      obtain ⟨-, -, hr2⟩ := unlock_member_returns _ _ _ _ hr
      refine hset _ _ _ hp ?_
      simp only [hr2]
      exact hlive i h0 hl
  | release i =>
    simp only [step] at hstep
    cases hl : s.live i with
    | none => simp [hl] at hstep
    | some h0 =>
      simp only [hl, Outcome.returns.injEq] at hstep
      subst hstep
      exact hset _ _ _ hp (Or.inl rfl)
  | observe i =>
    simp only [step] at hstep
    cases hl : s.live i with
    | none => simp [hl] at hstep
    | some h0 =>
      simp only [hl, Outcome.returns.injEq] at hstep
      subst hstep
      exact hp
  | construct t how =>
    cases how <;>
      simp only [step, unique_lock_ctor_try, unique_lock_default, unique_lock_ctor_defer,
        Outcome.returns.injEq] at hstep <;>
      subst hstep <;>
      intro h hm <;>
      simp only [List.mem_append, List.mem_singleton] at hm <;>
      rcases hm with hm | rfl
    · exact hp h hm
    · exact Or.inl rfl
    · exact hp h hm
    · exact Or.inr rfl
    · exact hp h hm
    · exact Or.inr rfl

theorem pointers_exec (maxLevels : Nat) (ops : List Op) (s s1 : Sys)
    (hp : ∀ h ∈ s.handles, h.lk.pm = none ∨ h.lk.pm = some .g_mutex)
    (hexec : exec maxLevels s ops = some s1) :
    ∀ h ∈ s1.handles, h.lk.pm = none ∨ h.lk.pm = some .g_mutex := by
  induction ops generalizing s with
  | nil =>
    simp [exec] at hexec
    exact hexec ▸ hp
  | cons op ops ih =>
    simp only [exec] at hexec
    split at hexec
    · rename_i s2 hs2
      exact ih s2 (pointers_step maxLevels s s2 op hp hs2) hexec
    · simp at hexec

/-- C10: the function has no parameter and in any memory, at any time and for
any caller it constructs the handle on `g_mutex`: a handle it returns points to
`g_mutex`, `g_mutex` is then held by the caller, no other mutex object is touched,
and the outcome depends on the state of `g_mutex` alone.  `g_mutex` exists and is
free at process start, so the first call returns with `Held(a, 1)`; and once a
call has returned, a call by any other context, in whatever memory agrees on
`g_mutex`, sees the lock held: it blocks.  Every handle of every reachable
program state points to `g_mutex` or to nothing. -/
theorem one_global_lock (maxLevels : Nat) (a b : Ctx) (mem : Memory) :
    (∃ mem1 h1, Memory.start.acquireGlobalLock maxLevels a = .returns (mem1, h1) ∧
      h1.pm = some .g_mutex ∧ mem1 .g_mutex = .Held a 1) ∧
    (∀ mem1 h, mem.acquireGlobalLock maxLevels a = .returns (mem1, h) →
      h.pm = some .g_mutex ∧ (∃ n, mem1 .g_mutex = .Held a (n + 1)) ∧
      (∀ k, mem1 (.other k) = mem (.other k)) ∧
      (∀ mem2 : Memory, mem2 .g_mutex = mem1 .g_mutex → b ≠ a →
        mem2.acquireGlobalLock maxLevels b = .blocks)) ∧
    (∀ mem2 : Memory, mem2 .g_mutex = mem .g_mutex →
      (mem2.acquireGlobalLock maxLevels b).andThen (fun x => (x.1 .g_mutex, x.2)) =
        (mem.acquireGlobalLock maxLevels b).andThen (fun x => (x.1 .g_mutex, x.2))) ∧
    (∀ ops s, exec maxLevels Sys.init ops = some s →
      ∀ h ∈ s.handles, h.lk.pm = none ∨ h.lk.pm = some .g_mutex) := by
  refine ⟨⟨Function.update Memory.start .g_mutex (.Held a 1), ⟨some .g_mutex, true⟩, rfl, rfl,
    by simp⟩, ?_, ?_, ?_⟩
  · intro mem1 h hr
    obtain ⟨h1, ⟨n, h2⟩, h3⟩ := memory_acquire_returns mem mem1 maxLevels a h hr
    refine ⟨h1, ⟨n, h2⟩, h3, ?_⟩
    intro mem2 hm2 hne
    rw [memory_acquire, hm2, h2, acquire_other maxLevels a b _ (Ne.symm hne)]
    rfl
  · intro mem2 hm2
    rw [memory_acquire, memory_acquire, hm2]
    cases acquireGlobalLock maxLevels b (mem MutexRef.g_mutex) <;> simp [Outcome.andThen]
  · intro ops s hexec
    exact pointers_exec maxLevels ops Sys.init s (by simp [Sys.init]) hexec

/-! ## Reachable states -/

theorem holds_pos (s : Sys) (a : Ctx) (h : 0 < s.holds a) :
    ∃ o, (a, o) ∈ grants s.handles := by
  unfold Sys.holds at h
  rw [List.countP_pos_iff] at h
  obtain ⟨x, hx, hp⟩ := h
  simp only [Bool.and_eq_true, decide_eq_true_eq] at hp
  refine ⟨x.origin, ?_⟩
  simp only [grants, List.mem_map, List.mem_filter]
  exact ⟨x, ⟨hx, hp.1⟩, by rw [hp.2]⟩

/-- C1: in every state reached from the initial (free) state by a finite
sequence of operations of any contexts, two contexts that each hold the lock
through a live owning handle are the same context, and that context is the
owner recorded in the mutex, with at least one level. -/
theorem mutual_exclusion (maxLevels : Nat) (ops : List Op) (s : Sys)
    (hexec : exec maxLevels Sys.init ops = some s) (a b : Ctx)
    (ha : 0 < s.holds a) (hb : 0 < s.holds b) :
    a = b ∧ 0 < s.g_mutex.levelsOf a := by
  have hinv := inv_reachable maxLevels ops s hexec
  obtain ⟨oa, hoa⟩ := holds_pos s a ha
  obtain ⟨ob, hob⟩ := holds_pos s b hb
  obtain ⟨na, hna⟩ := hinv.owner _ hoa
  obtain ⟨nb, hnb⟩ := hinv.owner _ hob
  have hwf := hinv.wf
  rw [hna] at hnb hwf
  simp only [LockState.Held.injEq] at hnb
  refine ⟨hnb.1, ?_⟩
  rw [hna]
  simpa [LockState.levelsOf, LockState.wf] using hwf

/-- C1, witness: thread 0 acquires twice, thread 1 is kept out. -/
theorem mutual_exclusion_witness :
    (0 : Ctx) = 0 ∧ 0 < (LockState.Held 0 2).levelsOf 0 :=
  mutual_exclusion 2048 [.acquire 0, .acquire 0]
    ⟨.Held 0 2, [⟨0, ⟨some .g_mutex, true⟩, true, 0⟩, ⟨0, ⟨some .g_mutex, true⟩, true, 1⟩], 2, []⟩
    (by decide) 0 0 (by decide) (by decide)

theorem mem_grants (hs : List Handle) (h : Handle) (hm : h ∈ hs) (ha : h.alive = true)
    (ho : h.lk.owns = true) : (h.ctx, h.origin) ∈ grants hs := by
  simp only [grants, List.mem_map, List.mem_filter]
  exact ⟨h, ⟨hm, by simp [Handle.holding, ha, ho]⟩, rfl⟩

theorem holder_is_owner (s : Sys) (hinv : Inv s) (h : Handle) (hm : h ∈ s.handles)
    (ha : h.alive = true) (ho : h.lk.owns = true) : ∃ n, s.g_mutex = .Held h.ctx (n + 1) := by
  obtain ⟨n, hn⟩ := hinv.owner _ (mem_grants s.handles h hm ha ho)
  have hwf := hinv.wf
  rw [hn] at hwf
  simp [LockState.wf] at hwf
  exact ⟨n - 1, by rw [hn, Nat.sub_add_cancel hwf]⟩

theorem destroy_defined (maxLevels : Nat) (s : Sys) (hinv : Inv s) (i : Nat) (h : Handle)
    (hget : s.handles[i]? = some h) (ha : h.alive = true) :
    ∃ s1, step maxLevels s (.destroy h.ctx i) = .returns s1 := by
  simp only [step, live_of s i h hget ha, unique_lock_dtor]
  cases ho : h.lk.owns
  · exact ⟨_, rfl⟩
  · obtain ⟨n, hn⟩ := holder_is_owner s hinv h (List.getElem?_mem hget) ha ho
    simp only [if_true, hn, recursive_mutex_unlock]
    split <;> exact ⟨_, rfl⟩

/-- C8: in every state reached by acquisitions, moves and destructions of
handles (and the other operations on handles), no acquisition has been given
back twice, every acquisition given back is one that was made, the
number of releases is at most the number of acquisitions, the depth of the lock
is exactly the acquisitions not yet given back (so it never goes below zero),
and the destruction of any live handle, a moved-from one included, by the
thread whose level it carries is defined: it never unlocks a lock its thread
does not own. -/
theorem release_at_most_once (maxLevels : Nat) (ops : List Op) (s : Sys)
    (hexec : exec maxLevels Sys.init ops = some s) :
    s.released.Nodup ∧ (∀ x ∈ s.released, x < s.acquired) ∧
    s.released.length ≤ s.acquired ∧
    s.released.length + s.g_mutex.depth = s.acquired ∧
    (∀ i h, s.handles[i]? = some h → h.alive = true →
      ∃ s1, step maxLevels s (.destroy h.ctx i) = .returns s1) := by
  have hinv := inv_reachable maxLevels ops s hexec
  refine ⟨(List.nodup_append.mp hinv.nodup).2.1, fun x hx => hinv.fresh x (by simp [hx]), ?_,
    hinv.balance, fun i h hget ha => destroy_defined maxLevels s hinv i h hget ha⟩
  have := hinv.balance
  omega

/-- C8, witness: thread 0 acquires, the handle is moved, then the moved-from
handle and the new handle are both destroyed: one release for one acquisition. -/
theorem release_at_most_once_witness :
    [0].Nodup ∧ (∀ x ∈ [0], x < 1) ∧ [0].length ≤ 1 ∧
    [0].length + LockState.Free.depth = 1 ∧
    (∀ i h, ([⟨0, ⟨none, false⟩, false, 0⟩, ⟨0, ⟨some .g_mutex, true⟩, false, 0⟩] :
        List Handle)[i]? = some h → h.alive = true →
      ∃ s1, step 2048 ⟨.Free, [⟨0, ⟨none, false⟩, false, 0⟩,
        ⟨0, ⟨some .g_mutex, true⟩, false, 0⟩], 1, [0]⟩ (.destroy h.ctx i) = .returns s1) :=
  release_at_most_once 2048 [.acquire 0, .move 0, .destroy 0 0, .destroy 0 1]
    ⟨.Free, [⟨0, ⟨none, false⟩, false, 0⟩, ⟨0, ⟨some .g_mutex, true⟩, false, 0⟩], 1, [0]⟩
    (by decide)

/-! ## A handle that keeps owning -/

/-- C7 (as amended): let `s` be a state with a well-formed lock in which `ctx`
can acquire, and let the body run inside the scope of the handle leave the lock
state as it found it and the handle of the scope alive and owning.  Then the
scope ends, in the way the body was left (by falling off its end, by an early
return or by a thrown failure alike), with the lock back in the state it had
in `s`; and when that state is `Free`, any context `B` can acquire the lock
afterwards. -/
theorem scope_exit_releases (maxLevels : Nat) (ctx : Ctx) (s s1 s2 : Sys) (body : List Stmt)
    (e : Exit) (h : Handle) (hwf : s.g_mutex.wf = true)
    (hacq : step maxLevels s (.acquire ctx) = .returns s1)
    (hbody : runBody maxLevels s1 body = .returns (e, s2))
    (hbal : s2.g_mutex = s1.g_mutex)
    (hkeep : s2.handles[s.handles.length]? = some h)
    (halive : h.alive = true) (howns : h.lk.owns = true) :
    ∃ s3, lockedScope maxLevels ctx body s = .returns (e, s3) ∧ s3.g_mutex = s.g_mutex ∧
      (s.g_mutex = .Free → ∀ B : Ctx, ∃ s4,
        step maxLevels s3 (.acquire B) = .returns s4 ∧ s4.g_mutex = .Held B 1) := by
  have hl : recursive_mutex_lock maxLevels ctx s.g_mutex = .returns s1.g_mutex := by
    simp only [step, acquireGlobalLock] at hacq
    obtain ⟨r, hr, rfl⟩ := andThen_returns _ _ _ hacq
    exact (ctor_returns _ _ _ _ _ hr).1
  have hu := unlock_after_lock maxLevels ctx s.g_mutex s1.g_mutex hwf hl
  have hd : step maxLevels s2 (.destroy ctx s.handles.length) =
      .returns
        { g_mutex := s.g_mutex
          handles := s2.handles.set s.handles.length { h with alive := false }
          acquired := s2.acquired
          released := s2.released ++ [h.origin] } := by
    simp only [step, live_of s2 _ h hkeep halive, unique_lock_dtor, howns, if_true, hbal, hu,
      Outcome.andThen]
  refine ⟨{ g_mutex := s.g_mutex
            handles := s2.handles.set s.handles.length { h with alive := false }
            acquired := s2.acquired
            released := s2.released ++ [h.origin] }, ?_, rfl, ?_⟩
  · simp only [lockedScope, hacq, hbody, hd, Outcome.andThen]
  · intro hfree B
    simp only [step, hfree, acquire_free, Outcome.andThen]
    exact ⟨_, rfl, rfl⟩

/-- C7, witness: thread 0 enters the scope with the lock free; the body takes
and gives back a second level and is then left by a thrown failure, which skips
the rest of the body. -/
theorem scope_exit_releases_witness :
    ∃ s3, lockedScope 2048 0
        [.act (.op (.acquire 0)), .act (.op (.destroy 0 1)), .raise, .act (.op (.release 0))]
        Sys.init = .returns (.thrown, s3) ∧ s3.g_mutex = Sys.init.g_mutex ∧
      (Sys.init.g_mutex = .Free → ∀ B : Ctx, ∃ s4,
        step 2048 s3 (.acquire B) = .returns s4 ∧ s4.g_mutex = .Held B 1) :=
  scope_exit_releases 2048 0 Sys.init
    ⟨.Held 0 1, [⟨0, ⟨some .g_mutex, true⟩, true, 0⟩], 1, []⟩
    ⟨.Held 0 1, [⟨0, ⟨some .g_mutex, true⟩, true, 0⟩, ⟨0, ⟨some .g_mutex, true⟩, false, 1⟩],
      2, [1]⟩
    [.act (.op (.acquire 0)), .act (.op (.destroy 0 1)), .raise, .act (.op (.release 0))]
    .thrown ⟨0, ⟨some .g_mutex, true⟩, true, 0⟩ rfl (by decide) (by decide) rfl (by decide)
    rfl rfl

/-- C7, counterexample: thread 0 enters the scope with the lock free and the
body calls `release()` on the handle of the scope.  The body leaves the lock state
as it found it (`Held(0, 1)`), yet after the scope has ended the lock is still
`Held(0, 1)`, not `Free`, and thread 1 cannot acquire it. -/
theorem scope_with_released_handle_keeps_lock :
    runBody 2048 ⟨.Held 0 1, [⟨0, ⟨some .g_mutex, true⟩, true, 0⟩], 1, []⟩
        [.act (.op (.release 0))] =
      .returns (.normal, ⟨.Held 0 1, [⟨0, ⟨none, false⟩, true, 0⟩], 1, []⟩) ∧
    lockedScope 2048 0 [.act (.op (.release 0))] Sys.init =
      .returns (.normal, ⟨.Held 0 1, [⟨0, ⟨none, false⟩, false, 0⟩], 1, []⟩) ∧
    step 2048 ⟨.Held 0 1, [⟨0, ⟨none, false⟩, false, 0⟩], 1, []⟩ (.acquire 1) = .blocks := by
  decide

/-! ## Nested scopes of one context -/

theorem exec_append (maxLevels : Nat) (s : Sys) (xs ys : List Op) :
    exec maxLevels s (xs ++ ys) = (exec maxLevels s xs).bind fun t => exec maxLevels t ys := by
  induction xs generalizing s with
  | nil => simp [exec]
  | cons x xs ih =>
    simp only [List.cons_append, exec]
    split
    · exact ih _
    · simp

theorem step_nested_acquire (maxLevels : Nat) (ctx : Ctx) (N : Nat) (hN : N < maxLevels) :
    step maxLevels (nestedState ctx N 0) (.acquire ctx) = .returns (nestedState ctx (N + 1) 0) := by
  have hm : acquireGlobalLock maxLevels ctx (nestedState ctx N 0).g_mutex =
      .returns ((nestedState ctx (N + 1) 0).g_mutex, ⟨some .g_mutex, true⟩) := by
    simp only [nestedState]
    cases N with
    | zero => simp [acquire_free]
    | succ n => simp [acquire_reentrant _ _ _ hN]
  simp only [step, hm, Outcome.andThen]
  simp only [nestedState, Outcome.returns.injEq, Sys.mk.injEq, true_and, and_true]
  refine ⟨?_, by simp⟩
  rw [List.range_succ, List.map_append]
  congr 1
  · apply List.map_congr_left
    intro i hi
    have := List.mem_range.mp hi
    simp [this]
    omega
  · simp

theorem nested_handle (ctx : Ctx) (N k i : Nat) (hi : i < N) :
    (nestedState ctx N k).handles[i]? =
      some ⟨ctx, ⟨some .g_mutex, true⟩, decide (i + k < N), i⟩ := by
  simp only [nestedState, List.getElem?_map]
  rw [List.getElem?_range hi]
  rfl

theorem step_nested_destroy (maxLevels : Nat) (ctx : Ctx) (N k : Nat) (hk : k < N) :
    step maxLevels (nestedState ctx N k) (.destroy ctx (N - 1 - k)) =
      .returns (nestedState ctx N (k + 1)) := by
  have hget : (nestedState ctx N k).handles[N - 1 - k]? =
      some ⟨ctx, ⟨some .g_mutex, true⟩, true, N - 1 - k⟩ := by
    rw [nested_handle ctx N k (N - 1 - k) (by omega)]
    simp
    omega
  simp only [step, live_of _ _ _ hget rfl, unique_lock_dtor, if_true]
  have hmu : recursive_mutex_unlock ctx (nestedState ctx N k).g_mutex =
      .returns (nestedState ctx N (k + 1)).g_mutex := by
    simp only [nestedState, if_neg (Nat.not_le.mpr hk), recursive_mutex_unlock, if_true]
    by_cases h1 : N ≤ k + 1
    · rw [if_pos (by omega), if_pos h1]
    · rw [if_neg (by omega), if_neg h1]
      rfl
  simp only [hmu, Outcome.andThen, Outcome.returns.injEq]
  simp only [nestedState, Sys.mk.injEq, true_and]
  refine ⟨?_, ?_⟩
  · apply List.ext_getElem?
    intro j
    simp only [List.getElem?_set, List.getElem?_map, List.length_map, List.length_range]
    by_cases hj : j < N
    · rw [List.getElem?_range hj]
      by_cases hji : N - 1 - k = j
      · subst hji
        simp
        omega
      · simp [hji]
        omega
    · rw [List.getElem?_eq_none (by simpa using hj)]
      by_cases hji : N - 1 - k = j
      · omega
      · simp [hji]
  · rw [List.range_succ, List.map_append]
    simp

theorem exec_nested_acquires (maxLevels : Nat) (ctx : Ctx) (N : Nat) (hN : N ≤ maxLevels) :
    exec maxLevels Sys.init (List.replicate N (Op.acquire ctx)) = some (nestedState ctx N 0) := by
  induction N with
  | zero => rfl
  | succ n ih =>
    rw [List.replicate_succ', exec_append, ih (by omega)]
    simp only [Option.some_bind, exec, step_nested_acquire maxLevels ctx n (by omega)]

theorem exec_nested_destroys (maxLevels : Nat) (ctx : Ctx) (N k : Nat) (hk : k ≤ N) :
    exec maxLevels (nestedState ctx N 0)
        ((List.range k).map fun j => Op.destroy ctx (N - 1 - j)) =
      some (nestedState ctx N k) := by
  induction k with
  | zero => rfl
  | succ n ih =>
    rw [List.range_succ, List.map_append, exec_append, ih (by omega)]
    simp only [Option.some_bind, List.map_cons, List.map_nil, exec,
      step_nested_destroy maxLevels ctx N n (by omega)]

theorem exec_nested (maxLevels : Nat) (ctx : Ctx) (N k : Nat) (hN : N ≤ maxLevels)
    (hk : k ≤ N) : exec maxLevels Sys.init (nested ctx N k) = some (nestedState ctx N k) := by
  rw [nested, exec_append, exec_nested_acquires maxLevels ctx N hN]
  exact exec_nested_destroys maxLevels ctx N k hk

theorem nested_lock (ctx : Ctx) (N k : Nat) (hk : k ≤ N) :
    (nestedState ctx N k).g_mutex = if k = N then .Free else .Held ctx (N - k) := by
  simp only [nestedState]
  by_cases h : k = N
  · rw [if_pos (by omega), if_pos h]
  · rw [if_neg (by omega), if_neg h]

/-- C4 (as amended): for every `N` up to the implementation limit on ownership
levels and every `k ≤ N`, starting from `Free`, `N` acquisitions by `ctx`
followed by the exit of the innermost `k` scopes all complete (none blocks or
throws) and end in `Held(ctx, N - k)` when `k < N` and in `Free` exactly when
`k = N`. -/
theorem balanced_nesting (maxLevels : Nat) (ctx : Ctx) (N k : Nat) (hN : N ≤ maxLevels)
    (hk : k ≤ N) :
    ∃ s, exec maxLevels Sys.init (nested ctx N k) = some s ∧
      s.g_mutex = (if k = N then .Free else .Held ctx (N - k)) ∧
      (s.g_mutex = .Free ↔ k = N) := by
  refine ⟨nestedState ctx N k, exec_nested maxLevels ctx N k hN hk, nested_lock ctx N k hk, ?_⟩
  rw [nested_lock ctx N k hk]
  by_cases h : k = N
  · simp [h]
  · simp [h]

/-- C4, witness: three nested acquisitions by thread 5, two scopes left. -/
theorem balanced_nesting_witness :
    ∃ s, exec 2048 Sys.init (nested 5 3 2) = some s ∧
      s.g_mutex = (if 2 = 3 then .Free else .Held 5 (3 - 2)) ∧
      (s.g_mutex = .Free ↔ 2 = 3) :=
  balanced_nesting 2048 5 3 2 (by decide) (by decide)

/-- C4, counterexample: with a limit of 2048 levels, 2049 acquisitions by thread 0
starting from `Free` do not all complete: the last one throws. -/
theorem nesting_beyond_limit_fails :
    exec 2048 Sys.init (nested 0 2049 0) = none := by
  have h : nested 0 2049 0 = List.replicate 2048 (Op.acquire 0) ++ [Op.acquire 0] := by
    simp only [nested, List.range_zero, List.map_nil, List.append_nil]
    exact List.replicate_succ' 2048 (Op.acquire 0)
  rw [h, exec_append, exec_nested_acquires 2048 0 2048 (Nat.le_refl _)]
  simp only [Option.some_bind, exec, step, nestedState]
  rw [if_neg (by decide), acquire_at_limit 2048 0 (2048 - 0) (by decide)]
  rfl

theorem reverse_order (N k : Nat) (hk : k ≤ N) :
    (List.range k).map (fun j => N - 1 - j) = (List.range N).reverse.take k := by
  apply List.ext_getElem?
  intro j
  by_cases hj : j < k
  · rw [List.getElem?_map, List.getElem?_range hj, List.getElem?_take_of_lt hj,
      List.getElem?_reverse (by simpa using (by omega : j < N)),
      List.length_range, List.getElem?_range (by omega)]
    rfl
  · rw [List.getElem?_eq_none (by simpa using hj), List.getElem?_eq_none]
    simp
    omega

/-- C9 (as amended): when one context takes `N` handles by successive calls
(`N` up to the implementation limit) and the handles end as automatic objects of
nested scopes do, the innermost first, with no member call or move on them,
then after `k` scope exits the lock is `Held(ctx, N - k)` (`Free` when `k = N`), the
handles that have ended are exactly the `k` most recently acquired, and their
acquisitions have been given back, each once, in reverse order of acquisition;
the levels still held and the acquisitions given back add up to `N`.  And over
any sequence of acquisitions and operations on handles no acquisition is given
back twice, and the depth of the lock is the number of acquisitions not given
back. -/
theorem scoped_release_order (maxLevels : Nat) (ctx : Ctx) (N k : Nat) (hN : N ≤ maxLevels)
    (hk : k ≤ N) :
    (∃ s, exec maxLevels Sys.init (nested ctx N k) = some s ∧ s.acquired = N ∧
      s.released = (List.range N).reverse.take k ∧
      s.g_mutex = (if k = N then .Free else .Held ctx (N - k)) ∧
      s.released.length + s.g_mutex.depth = N ∧
      (∀ i, i < N →
        s.handles[i]? = some ⟨ctx, ⟨some .g_mutex, true⟩, decide (i + k < N), i⟩)) ∧
    (∀ ops t, exec maxLevels Sys.init ops = some t →
      t.released.Nodup ∧ t.released.length + t.g_mutex.depth = t.acquired) := by
  constructor
  · have hreach := exec_nested maxLevels ctx N k hN hk
    refine ⟨nestedState ctx N k, hreach, rfl, reverse_order N k hk, nested_lock ctx N k hk,
      ?_, fun i hi => nested_handle ctx N k i hi⟩
    exact (inv_reachable maxLevels _ _ hreach).balance
  · intro ops t ht
    have hinv := inv_reachable maxLevels ops t ht
    exact ⟨(List.nodup_append.mp hinv.nodup).2.1, hinv.balance⟩

/-- C9, witness: three handles of thread 5, two scopes left. -/
theorem scoped_release_order_witness :
    (∃ s, exec 2048 Sys.init (nested 5 3 2) = some s ∧ s.acquired = 3 ∧
      s.released = (List.range 3).reverse.take 2 ∧
      s.g_mutex = (if 2 = 3 then .Free else .Held 5 (3 - 2)) ∧
      s.released.length + s.g_mutex.depth = 3 ∧
      (∀ i, i < 3 →
        s.handles[i]? = some ⟨5, ⟨some .g_mutex, true⟩, decide (i + 2 < 3), i⟩)) ∧
    (∀ ops t, exec 2048 Sys.init ops = some t →
      t.released.Nodup ∧ t.released.length + t.g_mutex.depth = t.acquired) :=
  scoped_release_order 2048 5 3 2 (by decide) (by decide)

/-- C9, counterexample: thread 0 takes two handles and calls `unlock()` on the
first before the second is destroyed: the first acquisition is given back before
the second (the log is `[0, 1]`).  And a handle on which `release()` was called
leaves its acquisition unreleased after its destruction: the lock stays
`Held(0, 1)`. -/
theorem release_order_not_forced :
    exec 2048 Sys.init [.acquire 0, .acquire 0, .unlock 0 0, .destroy 0 1, .destroy 0 0] =
      some ⟨.Free, [⟨0, ⟨some .g_mutex, false⟩, false, 0⟩,
        ⟨0, ⟨some .g_mutex, true⟩, false, 1⟩], 2, [0, 1]⟩ ∧
    exec 2048 Sys.init [.acquire 0, .release 0, .destroy 0 0] =
      some ⟨.Held 0 1, [⟨0, ⟨none, false⟩, false, 0⟩], 1, []⟩ := by
  decide

end aidl_sync_util
